import Mathlib

/-!
Shallow embedding of the simulation job queue of `inflight-ui-service`
(`internal/storage/simulations/queue.go`, `internal/worker/simulation_worker.go`,
the queue API handler, and the `simulation_jobs` schema migration).

The database table `simulation_jobs` is modelled as a list of job records plus
the `SERIAL` id counter; `NOW()` is passed explicitly as a natural number.
JSONB payloads (`json.RawMessage`) are modelled as opaque strings; a nilable
`json.RawMessage` input becomes `Option String`.
-/

namespace InflightQueue

/-- `JobStatus` from queue.go: the five states allowed by the schema's
`valid_status` CHECK constraint. -/
inductive JobStatus where
  | pending
  | running
  | completed
  | failed
  | cancelled
deriving DecidableEq, Repr

/-- `SimulationJob` from queue.go / one row of `simulation_jobs`.
`current_config` and `proposed_config` are NOT NULL in the schema, hence plain
`String` here; nullable columns are `Option`. -/
structure SimulationJob where
  id : Nat
  userId : Int
  serviceId : String
  llmProvider : Option String
  promptVersionId : Option Int
  currentConfig : String
  proposedConfig : String
  context : Option String
  options : Option String
  status : JobStatus
  priority : Int
  result : Option String
  errorMessage : Option String
  queuedAt : Nat
  startedAt : Option Nat
  completedAt : Option Nat
  createdAt : Nat
  updatedAt : Option Nat
deriving DecidableEq, Repr

/-- `CreateJobInput` from queue.go; the two config payloads are nilable
`json.RawMessage` values, so `Option` here. -/
structure CreateJobInput where
  userId : Int
  serviceId : String
  llmProvider : Option String
  promptVersionId : Option Int
  currentConfig : Option String
  proposedConfig : Option String
  context : Option String
  options : Option String
  priority : Int
deriving DecidableEq, Repr

/-- The `simulation_jobs` table: its rows plus the `SERIAL` id sequence. -/
structure Store where
  jobs : List SimulationJob
  nextId : Nat
deriving DecidableEq, Repr

/-- The row created by `Enqueue`'s INSERT: id from the `SERIAL` sequence,
`status = 'pending'`, `queued_at`/`created_at` from `NOW()`, nullable
columns NULL. -/
def newJob (s : Store) (now : Nat) (input : CreateJobInput) (cc pc : String) :
    SimulationJob :=
  { id := s.nextId
    userId := input.userId
    serviceId := input.serviceId
    llmProvider := input.llmProvider
    promptVersionId := input.promptVersionId
    currentConfig := cc
    proposedConfig := pc
    context := input.context
    options := input.options
    status := .pending
    priority := input.priority
    result := none
    errorMessage := none
    queuedAt := now
    startedAt := none
    completedAt := none
    createdAt := now
    updatedAt := none }

/-- `Enqueue` from queue.go: rejects a nil `current_config`, then a nil
`proposed_config`; the INSERT then enforces the schema's `valid_priority`
CHECK (`priority BETWEEN 0 AND 100`).  On success one row is inserted with
`status = 'pending'` and `queued_at = NOW()`, and the created row is
returned (RETURNING clause).  An error leaves the table untouched. -/
def Enqueue (s : Store) (now : Nat) (input : CreateJobInput) :
    Except String (SimulationJob × Store) :=
  match input.currentConfig with
  | none => .error "current_config cannot be nil"
  | some cc =>
    match input.proposedConfig with
    | none => .error "proposed_config cannot be nil"
    | some pc =>
      if input.priority < 0 ∨ 100 < input.priority then
        .error "enqueue job: new row violates check constraint valid_priority"
      else
        .ok (newJob s now input cc pc,
             { jobs := s.jobs ++ [newJob s now input cc pc], nextId := s.nextId + 1 })

/-- The claim ordering of `GetNextPendingJob`: `ORDER BY priority DESC,
queued_at ASC`.  `claimBetter a b` says row `a` sorts strictly before row
`b` in that order. -/
def claimBetter (a b : SimulationJob) : Bool :=
  b.priority < a.priority ∨ (a.priority = b.priority ∧ a.queuedAt < b.queuedAt)

/-- The subquery of `GetNextPendingJob`: `SELECT id FROM simulation_jobs WHERE
status = 'pending' ORDER BY priority DESC, queued_at ASC LIMIT 1`.  Among
rows tied on both keys the physical row order (list order) decides, as in SQL. -/
def selectNextPending : List SimulationJob → Option SimulationJob
  | [] => none
  | j :: rest =>
    match selectNextPending rest with
    | none => if j.status = .pending then some j else none
    | some b =>
      if j.status = .pending then
        if claimBetter b j then some b else some j
      else some b

/-- The SET clause of the claiming UPDATE: `status = 'running',
started_at = NOW(), updated_at = NOW()`. -/
def claimUpdate (now : Nat) (j : SimulationJob) : SimulationJob :=
  { j with status := .running, startedAt := some now, updatedAt := some now }

/-- `UPDATE simulation_jobs SET ... WHERE id = k` applied to the table. -/
def applyClaim (jobs : List SimulationJob) (k : Nat) (now : Nat) :
    List SimulationJob :=
  jobs.map fun j => if j.id = k then claimUpdate now j else j

/-- `GetNextPendingJob` from queue.go: the single-statement
claim (UPDATE ... WHERE id = (SELECT ... FOR UPDATE SKIP LOCKED) RETURNING *).
`sql.ErrNoRows` is mapped to `(nil, nil)`, i.e. `none` with the store
unchanged — "no job" is not an error. -/
def GetNextPendingJob (s : Store) (now : Nat) :
    Option SimulationJob × Store :=
  match selectNextPending s.jobs with
  | none => (none, s)
  | some j => (some (claimUpdate now j), { s with jobs := applyClaim s.jobs j.id now })

/-- The SET clause of `MarkCompleted`: `status = 'completed', result = $2,
completed_at = NOW(), updated_at = NOW()`. -/
def completeUpdate (res : String) (now : Nat) (j : SimulationJob) : SimulationJob :=
  { j with status := .completed, result := some res,
           completedAt := some now, updatedAt := some now }

/-- `MarkCompleted` from queue.go: `UPDATE ... WHERE id = $1` —
unconditional on the current status. -/
def MarkCompleted (s : Store) (jobID : Nat) (res : String) (now : Nat) : Store :=
  { s with jobs := s.jobs.map fun j =>
      if j.id = jobID then completeUpdate res now j else j }

/-- The SET clause of `MarkFailed`: `status = 'failed', error_message = $2,
completed_at = NOW(), updated_at = NOW()`. -/
def failUpdate (errorMsg : String) (now : Nat) (j : SimulationJob) : SimulationJob :=
  { j with status := .failed, errorMessage := some errorMsg,
           completedAt := some now, updatedAt := some now }

/-- `MarkFailed` from queue.go: `UPDATE ... WHERE id = $1` —
unconditional on the current status. -/
def MarkFailed (s : Store) (jobID : Nat) (errorMsg : String) (now : Nat) : Store :=
  { s with jobs := s.jobs.map fun j =>
      if j.id = jobID then failUpdate errorMsg now j else j }

/-- The SET clause of `CancelJob`: `status = 'cancelled',
updated_at = NOW()`. -/
def cancelUpdate (now : Nat) (j : SimulationJob) : SimulationJob :=
  { j with status := .cancelled, updatedAt := some now }

/-- `CancelJob` from queue.go: `UPDATE ... SET status = 'cancelled',
updated_at = NOW() WHERE id = $1 AND status = 'pending'`; when zero rows are
affected it returns the error "job not found or not in pending status".
The pair is (error message if any, table state after the call). -/
def CancelJob (s : Store) (jobID : Nat) (now : Nat) : Option String × Store :=
  let affected := s.jobs.countP fun j => j.id = jobID ∧ j.status = .pending
  if affected = 0 then
    (some "job not found or not in pending status", s)
  else
    (none,
     { s with jobs := s.jobs.map fun j =>
         if j.id = jobID ∧ j.status = .pending then cancelUpdate now j else j })

/-- The five status values, in the schema's comment order. -/
def allStatuses : List JobStatus :=
  [.pending, .running, .completed, .failed, .cancelled]

/-- `GetQueueStats` from queue.go: `SELECT status, COUNT(*) FROM
simulation_jobs GROUP BY status` — only statuses with at least one row
appear in the result. -/
def GetQueueStats (s : Store) : List (JobStatus × Nat) :=
  (allStatuses.map fun st => (st, s.jobs.countP fun j => j.status = st)).filter
    fun p => p.2 ≠ 0

/-- Number of rows currently `pending`. -/
def pendingCount (s : Store) : Nat :=
  s.jobs.countP fun j => j.status = .pending

/-! ## The worker (`internal/worker/simulation_worker.go`)

The Advisor call and the database writes are the worker's only effects; the
outcome of the HTTP request and the success of the two terminal UPDATEs are
modelled as an environment the worker runs in. -/

/-- Outcome of `client.Do(req)` against the Advisor: either a transport
error or a response with a status code and a body. -/
inductive DelegateResult where
  | transportError (msg : String)
  | response (statusCode : Nat) (body : String)
deriving DecidableEq, Repr

/-- The worker's environment for one `processNextJob` cycle: what the
Advisor returns, whether the `MarkCompleted` UPDATE fails (with which
database error message), and whether the `MarkFailed` UPDATE fails. -/
structure WorkerEnv where
  delegate : DelegateResult
  markCompletedError : Option String
  markFailedErrors : Bool
deriving DecidableEq, Repr

/-- `executeSimulation` from simulation_worker.go, after the request payload
has been marshalled (marshalling a map of raw JSON fields cannot fail):
a transport failure yields `execute request: ...`; a status other than
`http.StatusOK` (exactly 200) yields `advisor returned <code>: <body>`;
otherwise the raw response body is stored via `MarkCompleted`, whose own
failure yields `mark completed: ...` with the store unchanged. -/
def executeSimulation (s : Store) (now : Nat) (jobID : Nat) (env : WorkerEnv) :
    Except String Store :=
  match env.delegate with
  | .transportError msg => .error ("execute request: " ++ msg)
  | .response code body =>
    if code ≠ 200 then
      .error ("advisor returned " ++ toString code ++ ": " ++ body)
    else
      match env.markCompletedError with
      | some m => .error ("mark completed: " ++ m)
      | none => .ok (MarkCompleted s jobID body now)

/-- `processNextJob` from simulation_worker.go: claim the next pending job
(no job: return), execute it, and on any execution error call `MarkFailed`
with that error's message, discarding `MarkFailed`'s own error — if the
`MarkFailed` UPDATE fails the store is left as it was after the claim. -/
def processNextJob (s : Store) (now : Nat) (env : WorkerEnv) : Store :=
  match GetNextPendingJob s now with
  | (none, s1) => s1
  | (some job, s1) =>
    match executeSimulation s1 now job.id env with
    | .ok s2 => s2
    | .error msg => if env.markFailedErrors then s1 else MarkFailed s1 job.id msg now

/-! ## The queue API handler (`EnqueueSimulation`) -/

/-- The request body bound by `EnqueueSimulation`; a JSON request without a
`priority` field binds the Go zero value `0`. -/
structure EnqueueRequest where
  serviceId : String
  llmProvider : Option String
  promptVersionId : Option Int
  currentConfig : Option String
  proposedConfig : Option String
  context : Option String
  options : Option String
  priority : Int
deriving DecidableEq, Repr

/-- Errors surfaced by the `EnqueueSimulation` handler: 400 for a missing
`service_id`, 500 wrapping any store error. -/
inductive ApiError where
  | badRequest (msg : String)
  | internalError (msg : String)
deriving DecidableEq, Repr

/-- The handler's priority defaulting: "Default priority to 50 if not
specified" — a bound `priority` of 0 (the Go zero value) becomes 50. -/
def apiPriority (p : Int) : Int :=
  if p = 0 then 50 else p

/-- The `CreateJobInput` the handler passes to `Enqueue`. -/
def apiInput (userId : Int) (req : EnqueueRequest) : CreateJobInput :=
  { userId := userId
    serviceId := req.serviceId
    llmProvider := req.llmProvider
    promptVersionId := req.promptVersionId
    currentConfig := req.currentConfig
    proposedConfig := req.proposedConfig
    context := req.context
    options := req.options
    priority := apiPriority req.priority }

/-- `EnqueueSimulation` from the queue API handler (for an authenticated
user): rejects an empty `service_id`, defaults `priority` to 50 when it is
0 (the unset value), and calls `Enqueue`, mapping its error to a 500. -/
def EnqueueSimulation (s : Store) (now : Nat) (userId : Int)
    (req : EnqueueRequest) : Except ApiError (SimulationJob × Store) :=
  if req.serviceId = "" then .error (.badRequest "service_id is required")
  else
    match Enqueue s now (apiInput userId req) with
    | .error e => .error (.internalError ("failed to enqueue simulation: " ++ e))
    | .ok r => .ok r

/-! ## Batched claims

`FOR UPDATE SKIP LOCKED` serializes concurrent claimers: each caller's
subquery skips the rows already locked by in-flight claimers, so it either
locks a distinct pending row or sees an empty result, and no caller blocks.
A batch of N concurrent `GetNextPendingJob` calls is therefore equivalent to
N sequential calls in lock-acquisition order, which is how it is modelled. -/

/-- N concurrent `GetNextPendingJob` calls, in lock-acquisition order:
the list of per-call results and the final table state. -/
def claimMany (s : Store) (now : Nat) : Nat → List (Option SimulationJob) × Store
  | 0 => ([], s)
  | n + 1 =>
    let r := GetNextPendingJob s now
    let rest := claimMany r.2 now n
    (r.1 :: rest.1, rest.2)

/-- Job ids of the successful calls in a batch result. -/
def claimedIds (results : List (Option SimulationJob)) : List Nat :=
  results.filterMap fun o => o.map SimulationJob.id

/-- Status of the row with id `k`, as a point lookup would see it. -/
def jobStatus (s : Store) (k : Nat) : Option JobStatus :=
  (s.jobs.find? fun j => j.id = k).map SimulationJob.status

/-- `result` column of the row with id `k`. -/
def jobResult (s : Store) (k : Nat) : Option (Option String) :=
  (s.jobs.find? fun j => j.id = k).map SimulationJob.result

/-- `error_message` column of the row with id `k`. -/
def jobErrorMessage (s : Store) (k : Nat) : Option (Option String) :=
  (s.jobs.find? fun j => j.id = k).map SimulationJob.errorMessage

/-! ## Lemmas about the claim selection -/

theorem claimBetter_irrefl (a : SimulationJob) : claimBetter a a = false := by
  simp [claimBetter]

theorem claimBetter_asymm {a b : SimulationJob} (h : claimBetter a b = true) :
    claimBetter b a = false := by
  simp only [claimBetter, decide_eq_true_eq, decide_eq_false_iff_not] at h ⊢
  omega

theorem claimBetter_not_trans {p b h : SimulationJob}
    (h1 : claimBetter p b = false) (h2 : claimBetter b h = false) :
    claimBetter p h = false := by
  simp only [claimBetter, decide_eq_false_iff_not] at h1 h2 ⊢
  omega

theorem selectNextPending_mem {l : List SimulationJob} {j : SimulationJob}
    (h : selectNextPending l = some j) : j ∈ l ∧ j.status = .pending := by
  induction l with
  | nil => simp [selectNextPending] at h
  | cons x rest ih =>
    simp only [selectNextPending] at h
    cases hr : selectNextPending rest with
    | none =>
      rw [hr] at h
      by_cases hx : x.status = .pending
      · simp [hx] at h
        subst h
        exact ⟨List.mem_cons_self x rest, hx⟩
      · simp [hx] at h
    | some b =>
      rw [hr] at h
      by_cases hx : x.status = .pending
      · simp only [hx, if_true] at h
        by_cases hb : claimBetter b x = true
        · simp [hb] at h
          subst h
          have := ih hr
          exact ⟨List.mem_cons_of_mem x this.1, this.2⟩
        · simp [hb] at h
          subst h
          exact ⟨List.mem_cons_self x rest, hx⟩
      · simp only [hx, if_false] at h
        cases h
        have := ih hr
        exact ⟨List.mem_cons_of_mem x this.1, this.2⟩

theorem selectNextPending_eq_none {l : List SimulationJob} :
    selectNextPending l = none ↔ ∀ j ∈ l, j.status ≠ .pending := by
  induction l with
  | nil => simp [selectNextPending]
  | cons x rest ih =>
    simp only [selectNextPending]
    cases hr : selectNextPending rest with
    | none =>
      by_cases hx : x.status = .pending
      · simp [hx]
      · constructor
        · intro _ jj hjj
          rcases List.mem_cons.mp hjj with rfl | hm
          · exact hx
          · exact ih.mp hr jj hm
        · intro _
          simp [hx]
    | some b =>
      have hb := selectNextPending_mem hr
      constructor
      · intro h
        by_cases hx : x.status = .pending
        · simp [hx] at h
          split at h <;> simp_all
        · simp [hx] at h
      · intro h
        exact absurd hb.2 (h b (List.mem_cons_of_mem x hb.1))

theorem selectNextPending_best (l : List SimulationJob) :
    ∀ j, selectNextPending l = some j →
      ∀ p ∈ l, p.status = .pending → claimBetter p j = false := by
  induction l with
  | nil => intro j h; simp [selectNextPending] at h
  | cons x rest ih =>
    intro j h p hp hpend
    simp only [selectNextPending] at h
    cases hr : selectNextPending rest with
    | none =>
      rw [hr] at h
      by_cases hx : x.status = .pending
      · simp only [hx, if_true, Option.some.injEq] at h
        rcases List.mem_cons.mp hp with rfl | hmem
        · rw [← h]; exact claimBetter_irrefl p
        · exact absurd hpend (selectNextPending_eq_none.mp hr p hmem)
      · simp [hx] at h
    | some b =>
      rw [hr] at h
      by_cases hx : x.status = .pending
      · simp only [hx, if_true] at h
        by_cases hbb : claimBetter b x = true
        · simp [hbb] at h
          subst h
          rcases List.mem_cons.mp hp with rfl | hmem
          · exact claimBetter_asymm hbb
          · exact ih b hr p hmem hpend
        · simp [hbb] at h
          subst h
          rcases List.mem_cons.mp hp with rfl | hmem
          · exact claimBetter_irrefl p
          · have h1 := ih b hr p hmem hpend
            have h2 : claimBetter b x = false := Bool.eq_false_iff.mpr hbb
            exact claimBetter_not_trans h1 h2
      · simp [hx] at h
        subst h
        rcases List.mem_cons.mp hp with rfl | hmem
        · exact absurd hpend hx
        · exact ih b hr p hmem hpend

/-! ## Lemmas about the claiming UPDATE -/

theorem claimUpdate_id (now : Nat) (j : SimulationJob) :
    (claimUpdate now j).id = j.id := rfl

theorem claimUpdate_status (now : Nat) (j : SimulationJob) :
    (claimUpdate now j).status = .running := rfl

theorem applyClaim_map_id (jobs : List SimulationJob) (k now : Nat) :
    (applyClaim jobs k now).map SimulationJob.id = jobs.map SimulationJob.id := by
  induction jobs with
  | nil => rfl
  | cons x rest ih =>
    simp only [applyClaim, List.map_cons] at ih ⊢
    rw [ih]
    by_cases hx : x.id = k <;> simp [hx, claimUpdate_id]

theorem applyClaim_of_forall_ne (jobs : List SimulationJob) (k now : Nat)
    (h : ∀ y ∈ jobs, y.id ≠ k) : applyClaim jobs k now = jobs := by
  induction jobs with
  | nil => rfl
  | cons x rest ih =>
    simp only [applyClaim, List.map_cons]
    rw [if_neg (h x (List.mem_cons_self x rest))]
    have := ih fun y hy => h y (List.mem_cons_of_mem x hy)
    simp only [applyClaim] at this
    rw [this]

theorem mem_applyClaim_pending {jobs : List SimulationJob} {k now : Nat}
    {p : SimulationJob} (hp : p ∈ applyClaim jobs k now)
    (hpend : p.status = .pending) : p ∈ jobs ∧ p.id ≠ k := by
  obtain ⟨q, hq, hfq⟩ := List.mem_map.mp hp
  by_cases hid : q.id = k
  · rw [if_pos hid] at hfq
    rw [← hfq] at hpend
    simp [claimUpdate_status] at hpend
  · rw [if_neg hid] at hfq
    subst hfq
    exact ⟨hq, hid⟩

theorem countP_applyClaim {jobs : List SimulationJob} {j : SimulationJob}
    (now : Nat) (hmem : j ∈ jobs) (hpend : j.status = .pending)
    (hnodup : (jobs.map SimulationJob.id).Nodup) :
    (applyClaim jobs j.id now).countP (fun x => x.status = .pending) + 1
      = jobs.countP (fun x => x.status = .pending) := by
  induction jobs with
  | nil => simp at hmem
  | cons x rest ih =>
    simp only [List.map_cons, List.nodup_cons] at hnodup
    rcases List.mem_cons.mp hmem with rfl | hmem'
    · have hrest : ∀ y ∈ rest, y.id ≠ j.id := by
        intro y hy hceq
        exact hnodup.1 (hceq ▸ List.mem_map_of_mem SimulationJob.id hy)
      simp only [applyClaim, List.map_cons, if_pos rfl]
      have heq := applyClaim_of_forall_ne rest j.id now hrest
      simp only [applyClaim] at heq
      rw [heq]
      simp [List.countP_cons, claimUpdate_status, hpend]
    · have hxid : x.id ≠ j.id := by
        intro hceq
        exact hnodup.1 (hceq ▸ List.mem_map_of_mem SimulationJob.id hmem')
      simp only [applyClaim, List.map_cons, if_neg hxid]
      have := ih hmem' hnodup.2
      simp only [applyClaim] at this
      simp [List.countP_cons, ← this]
      omega

/-! ## Lemmas about batched claims -/

/-- The table holds a pending row with id `k`. -/
def pendingIn (jobs : List SimulationJob) (k : Nat) : Prop :=
  ∃ q ∈ jobs, q.id = k ∧ q.status = .pending

theorem pendingIn_applyClaim {jobs : List SimulationJob} {k k' now : Nat}
    (h : pendingIn (applyClaim jobs k now) k') : pendingIn jobs k' ∧ k' ≠ k := by
  obtain ⟨q, hq, hid, hpend⟩ := h
  have := mem_applyClaim_pending hq hpend
  exact ⟨⟨q, this.1, hid, hpend⟩, hid ▸ this.2⟩

theorem selectNextPending_eq_none_of_pendingCount {s : Store}
    (h : pendingCount s = 0) : selectNextPending s.jobs = none := by
  rw [selectNextPending_eq_none]
  intro j hj hpend
  have := List.countP_eq_zero.mp h j hj
  simp [hpend] at this

theorem pendingCount_pos_of_select {s : Store} {j : SimulationJob}
    (h : selectNextPending s.jobs = some j) : 0 < pendingCount s := by
  obtain ⟨hmem, hpend⟩ := selectNextPending_mem h
  by_contra hc
  have hz : pendingCount s = 0 := by omega
  rw [selectNextPending_eq_none_of_pendingCount hz] at h
  exact Option.noConfusion h

theorem claimMany_length (s : Store) (now n : Nat) :
    (claimMany s now n).1.length = n := by
  induction n generalizing s with
  | zero => rfl
  | succ n ih => simp [claimMany, ih]

theorem claimMany_mem_pendingIn (s : Store) (now n : Nat) :
    ∀ o ∈ (claimMany s now n).1, ∀ job : SimulationJob, o = some job →
      pendingIn s.jobs job.id := by
  induction n generalizing s with
  | zero => intro o ho; simp [claimMany] at ho
  | succ n ih =>
    intro o ho job hjob
    simp only [claimMany, List.mem_cons] at ho
    rcases ho with rfl | ho
    · unfold GetNextPendingJob at hjob
      cases hsel : selectNextPending s.jobs with
      | none => rw [hsel] at hjob; exact Option.noConfusion hjob
      | some j =>
        rw [hsel] at hjob
        simp only [Option.some.injEq] at hjob
        obtain ⟨hmem, hpend⟩ := selectNextPending_mem hsel
        exact ⟨j, hmem, by rw [← hjob, claimUpdate_id], hpend⟩
    · have := ih (GetNextPendingJob s now).2 o ho job hjob
      unfold GetNextPendingJob at this
      cases hsel : selectNextPending s.jobs with
      | none => rwa [hsel] at this
      | some j =>
        rw [hsel] at this
        exact (pendingIn_applyClaim this).1

theorem claimMany_claimedIds_nodup (s : Store) (now n : Nat) :
    (claimedIds (claimMany s now n).1).Nodup := by
  induction n generalizing s with
  | zero => simp [claimMany, claimedIds]
  | succ n ih =>
    simp only [claimMany, claimedIds, List.filterMap_cons]
    cases hcl : (GetNextPendingJob s now).1 with
    | none => exact ih (GetNextPendingJob s now).2
    | some job =>
      have hred : (some job).map SimulationJob.id = some job.id := rfl
      rw [hred]
      rw [List.nodup_cons]
      refine ⟨?_, ih (GetNextPendingJob s now).2⟩
      intro hin
      obtain ⟨o, ho, hmap⟩ := List.mem_filterMap.mp hin
      cases o with
      | none => simp at hmap
      | some job' =>
        have hred' : (some job').map SimulationJob.id = some job'.id := rfl
        rw [hred', Option.some.injEq] at hmap
        have hpend' := claimMany_mem_pendingIn (GetNextPendingJob s now).2 now n
          (some job') ho job' rfl
        unfold GetNextPendingJob at hcl hpend'
        cases hsel : selectNextPending s.jobs with
        | none => rw [hsel] at hcl; exact Option.noConfusion hcl
        | some j =>
          rw [hsel] at hcl hpend'
          simp only [Option.some.injEq] at hcl
          have hne := (pendingIn_applyClaim hpend').2
          rw [hmap, ← hcl, claimUpdate_id] at hne
          exact hne rfl

theorem claimMany_success_count (s : Store) (now n : Nat)
    (hnodup : (s.jobs.map SimulationJob.id).Nodup) :
    (claimMany s now n).1.countP Option.isSome = min n (pendingCount s) := by
  induction n generalizing s with
  | zero => simp [claimMany]
  | succ n ih =>
    simp only [claimMany, List.countP_cons]
    unfold GetNextPendingJob
    cases hsel : selectNextPending s.jobs with
    | none =>
      have hz : pendingCount s = 0 := by
        rw [selectNextPending_eq_none] at hsel
        exact List.countP_eq_zero.mpr fun j hj => by simp [hsel j hj]
      simp only [Option.isSome_none, Bool.false_eq_true, if_false, Nat.add_zero]
      rw [ih s hnodup, hz]
      simp
    | some j =>
      obtain ⟨hmem, hpend⟩ := selectNextPending_mem hsel
      have hdec := @countP_applyClaim s.jobs j now hmem hpend hnodup
      have hnodup' : ((applyClaim s.jobs j.id now).map SimulationJob.id).Nodup := by
        rw [applyClaim_map_id]; exact hnodup
      have := ih { s with jobs := applyClaim s.jobs j.id now } hnodup'
      simp only [Option.isSome_some, if_true]
      rw [this]
      simp only [pendingCount] at hdec ⊢
      omega

/-! ## Lemmas about the stats query -/

theorem sum_snd_filter_ne_zero {α : Type} (l : List (α × Nat)) :
    (((l.filter fun p => p.2 ≠ 0).map Prod.snd).sum) = ((l.map Prod.snd).sum) := by
  induction l with
  | nil => rfl
  | cons x rest ih =>
    by_cases hx : x.2 = 0
    · rw [List.filter_cons, if_neg (by simp [hx])]
      simp only [List.map_cons, List.sum_cons, hx, Nat.zero_add]
      simpa using ih
    · rw [List.filter_cons, if_pos (by simp [hx])]
      simp only [List.map_cons, List.sum_cons]
      exact congrArg (x.2 + ·) (by simpa using ih)

theorem sum_countP_statuses (jobs : List SimulationJob) :
    ((allStatuses.map fun st => jobs.countP fun j => j.status = st).sum) = jobs.length := by
  induction jobs with
  | nil => simp [allStatuses]
  | cons x rest ih =>
    simp only [allStatuses, List.map_cons, List.map_nil, List.sum_cons,
      List.sum_nil, List.countP_cons, List.length_cons] at ih ⊢
    cases hx : x.status <;> simp [hx] <;> omega

/-! ## Sample data for concrete instantiations -/

/-- A sample row, for evaluating the operations on concrete tables. -/
def sampleJob (i : Nat) (pri : Int) (q : Nat) (st : JobStatus) : SimulationJob :=
  { id := i, userId := 1, serviceId := "svc1", llmProvider := none,
    promptVersionId := none, currentConfig := "heap=2g", proposedConfig := "heap=4g",
    context := none, options := none, status := st, priority := pri,
    result := none, errorMessage := none, queuedAt := q, startedAt := none,
    completedAt := none, createdAt := q, updatedAt := none }

/-- A table with two pending rows, ids 1 and 2. -/
def twoPendingStore : Store :=
  { jobs := [sampleJob 1 10 0 .pending, sampleJob 2 90 1 .pending], nextId := 3 }

/-- A table with a single pending row, id 1. -/
def onePendingStore : Store :=
  { jobs := [sampleJob 1 80 0 .pending], nextId := 2 }

/-! ## Claim theorems -/

/-- C1: for a table whose row ids are distinct (the primary key), any batch of
N concurrent `GetNextPendingJob` calls (serialized by `FOR UPDATE SKIP LOCKED`
in lock-acquisition order) returns pairwise-distinct job ids among the
successful calls, issues one result per call, and succeeds exactly
min N M times where M is the number of pending rows — so with M ≥ N every
call gets a job and with M < N exactly M do and the other N − M get "no job". -/
theorem claim_batch_no_double_claim (s : Store) (now n : Nat)
    (hnodup : (s.jobs.map SimulationJob.id).Nodup) :
    (claimedIds (claimMany s now n).1).Nodup
    ∧ (claimMany s now n).1.length = n
    ∧ (claimMany s now n).1.countP Option.isSome = min n (pendingCount s) :=
  ⟨claimMany_claimedIds_nodup s now n, claimMany_length s now n,
   claimMany_success_count s now n hnodup⟩

/-- Witness for C1: three concurrent claims against two pending jobs —
distinct ids, three results, exactly two successes. -/
theorem claim_batch_no_double_claim_witness :
    (twoPendingStore.jobs.map SimulationJob.id).Nodup
    ∧ ((claimedIds (claimMany twoPendingStore 7 3).1).Nodup
      ∧ (claimMany twoPendingStore 7 3).1.length = 3
      ∧ (claimMany twoPendingStore 7 3).1.countP Option.isSome
          = min 3 (pendingCount twoPendingStore)) :=
  ⟨by decide, claim_batch_no_double_claim twoPendingStore 7 3 (by decide)⟩

/-- C2: a successful `GetNextPendingJob` returns the update of a pending row
that no other pending row beats on (`priority` DESC, `queued_at` ASC); the
returned job is `running` with `started_at = now`, and the table records
exactly that one claim.  When no row is pending the call returns the
"no job" sentinel (not an error) and leaves the table unchanged, and
conversely. -/
theorem GetNextPendingJob_spec (s : Store) (now : Nat) :
    (∀ jret s1, GetNextPendingJob s now = (some jret, s1) →
      ∃ j, j ∈ s.jobs ∧ j.status = .pending
        ∧ (∀ p ∈ s.jobs, p.status = .pending →
            p.priority ≤ j.priority
            ∧ (p.priority = j.priority → j.queuedAt ≤ p.queuedAt))
        ∧ jret = claimUpdate now j
        ∧ jret.id = j.id ∧ jret.status = .running ∧ jret.startedAt = some now
        ∧ s1 = { s with jobs := applyClaim s.jobs j.id now })
    ∧ (GetNextPendingJob s now = (none, s) ↔ ∀ p ∈ s.jobs, p.status ≠ .pending) := by
  constructor
  · intro jret s1 h
    unfold GetNextPendingJob at h
    cases hsel : selectNextPending s.jobs with
    | none => rw [hsel] at h; exact absurd (congrArg Prod.fst h) (by simp)
    | some j =>
      rw [hsel] at h
      obtain ⟨h1, h2⟩ := Prod.mk.injEq .. ▸ h
      obtain ⟨hmem, hpend⟩ := selectNextPending_mem hsel
      have hj : jret = claimUpdate now j := (Option.some.inj h1).symm
      refine ⟨j, hmem, hpend, ?_, hj, by rw [hj]; rfl, by rw [hj]; rfl,
        by rw [hj]; rfl, h2.symm⟩
      intro p hp hppend
      have := selectNextPending_best s.jobs j hsel p hp hppend
      simp only [claimBetter, decide_eq_false_iff_not] at this
      exact ⟨by omega, fun hpr => by omega⟩
  · constructor
    · intro h
      by_contra hc
      push_neg at hc
      obtain ⟨p, hp, hppend⟩ := hc
      unfold GetNextPendingJob at h
      cases hsel : selectNextPending s.jobs with
      | none => exact absurd hppend (selectNextPending_eq_none.mp hsel p hp)
      | some j => rw [hsel] at h; exact absurd (congrArg Prod.fst h) (by simp)
    · intro h
      unfold GetNextPendingJob
      rw [selectNextPending_eq_none.mpr h]

/-- Witness for C2: claiming from a one-row pending table yields that row,
updated to `running`; the empty table yields the no-job sentinel. -/
theorem GetNextPendingJob_spec_witness :
    (∃ j, j ∈ onePendingStore.jobs ∧ j.status = .pending
      ∧ (∀ p ∈ onePendingStore.jobs, p.status = .pending →
          p.priority ≤ j.priority
          ∧ (p.priority = j.priority → j.queuedAt ≤ p.queuedAt))
      ∧ claimUpdate 9 (sampleJob 1 80 0 .pending) = claimUpdate 9 j
      ∧ (claimUpdate 9 (sampleJob 1 80 0 .pending)).id = j.id
      ∧ (claimUpdate 9 (sampleJob 1 80 0 .pending)).status = .running
      ∧ (claimUpdate 9 (sampleJob 1 80 0 .pending)).startedAt = some 9
      ∧ { jobs := applyClaim onePendingStore.jobs 1 9, nextId := 2 : Store }
          = { onePendingStore with jobs := applyClaim onePendingStore.jobs j.id 9 }) :=
  (GetNextPendingJob_spec onePendingStore 9).1
    (claimUpdate 9 (sampleJob 1 80 0 .pending))
    { jobs := applyClaim onePendingStore.jobs 1 9, nextId := 2 } (by decide)

/-- C8: the per-status counts of `GetQueueStats` sum to the total number of
rows in the table — every job has exactly one status and jobs are never
deleted. -/
theorem GetQueueStats_sum (s : Store) :
    ((GetQueueStats s).map Prod.snd).sum = s.jobs.length := by
  unfold GetQueueStats
  rw [sum_snd_filter_ne_zero, List.map_map]
  have : (Prod.snd ∘ fun st => (st, s.jobs.countP fun j => j.status = st))
      = fun st => s.jobs.countP fun j => j.status = st := rfl
  rw [this]
  exact sum_countP_statuses s.jobs

/-! ## Lemmas about Enqueue and the API handler -/

theorem Enqueue_ok_fields {s : Store} {now : Nat} {input : CreateJobInput}
    {job : SimulationJob} {s1 : Store}
    (h : Enqueue s now input = .ok (job, s1)) :
    job.priority = input.priority ∧ 0 ≤ input.priority ∧ input.priority ≤ 100
    ∧ job.status = .pending ∧ job.id = s.nextId ∧ job.queuedAt = now
    ∧ s1 = { jobs := s.jobs ++ [job], nextId := s.nextId + 1 } := by
  unfold Enqueue at h
  split at h
  · exact absurd h (by simp)
  · split at h
    · exact absurd h (by simp)
    · split at h
      · exact absurd h (by simp)
      · rename_i hpr
        simp only [Except.ok.injEq, Prod.mk.injEq] at h
        obtain ⟨hj, hs1⟩ := h
        subst hj
        exact ⟨rfl, by omega, by omega, rfl, rfl, rfl, hs1.symm⟩

theorem Enqueue_not_ok_of_priority {s : Store} {now : Nat}
    {input : CreateJobInput}
    (hpri : input.priority < 0 ∨ 100 < input.priority) :
    ∀ job s1, Enqueue s now input ≠ .ok (job, s1) := by
  intro job s1 h
  have := Enqueue_ok_fields h
  omega

theorem Enqueue_err_of_missing_config {s : Store} {now : Nat}
    {input : CreateJobInput}
    (h : input.currentConfig = none ∨ input.proposedConfig = none) :
    ∃ e, Enqueue s now input = .error e := by
  unfold Enqueue
  cases hcc : input.currentConfig with
  | none => exact ⟨_, rfl⟩
  | some cc =>
    cases hpc : input.proposedConfig with
    | none => exact ⟨_, rfl⟩
    | some pc =>
      rw [hcc, hpc] at h
      rcases h with h | h <;> exact Option.noConfusion h

theorem Enqueue_ok_of_valid {s : Store} {now : Nat} {input : CreateJobInput}
    {cc pc : String} (hcc : input.currentConfig = some cc)
    (hpc : input.proposedConfig = some pc)
    (h0 : 0 ≤ input.priority) (h100 : input.priority ≤ 100) :
    Enqueue s now input
      = .ok (newJob s now input cc pc,
             { jobs := s.jobs ++ [newJob s now input cc pc],
               nextId := s.nextId + 1 }) := by
  unfold Enqueue
  rw [hcc, hpc]
  exact if_neg (by omega)

/-! ## Sample enqueue inputs for concrete instantiations -/

/-- The empty table with the id sequence at 1. -/
def emptyStore : Store := { jobs := [], nextId := 1 }

/-- A request with both configs present and `priority` left unset (0). -/
def reqUnsetPriority : EnqueueRequest :=
  { serviceId := "svc1", llmProvider := none, promptVersionId := none,
    currentConfig := some "heap=2g", proposedConfig := some "heap=4g",
    context := none, options := none, priority := 0 }

/-- The row created by accepting `reqUnsetPriority` on the empty table at
time 5 for user 7. -/
def job50 : SimulationJob :=
  { id := 1, userId := 7, serviceId := "svc1", llmProvider := none,
    promptVersionId := none, currentConfig := "heap=2g",
    proposedConfig := "heap=4g", context := none, options := none,
    status := .pending, priority := 50, result := none, errorMessage := none,
    queuedAt := 5, startedAt := none, completedAt := none, createdAt := 5,
    updatedAt := none }

/-- A store-level input with both configs present but priority 150. -/
def input150 : CreateJobInput :=
  { userId := 1, serviceId := "svc1", llmProvider := none,
    promptVersionId := none, currentConfig := some "heap=2g",
    proposedConfig := some "heap=4g", context := none, options := none,
    priority := 150 }

/-- A store-level input with `proposed_config` absent. -/
def inputMissingProposed : CreateJobInput :=
  { input150 with proposedConfig := none, priority := 40 }

/-- A store-level input with both configs present and priority 40. -/
def inputOk : CreateJobInput :=
  { input150 with priority := 40 }

/-- C4: every enqueue request the API accepts stores a priority in [0,100]:
a priority outside [0,100] survives the handler's defaulting unchanged and
the INSERT is then rejected by the schema's `valid_priority` CHECK, and a
request with priority unset (bound to 0) is stored with priority 50. -/
theorem api_priority_bounds (s : Store) (now : Nat) (uid : Int)
    (req : EnqueueRequest) :
    (∀ job s1, EnqueueSimulation s now uid req = .ok (job, s1) →
      0 ≤ job.priority ∧ job.priority ≤ 100
      ∧ (req.priority = 0 → job.priority = 50))
    ∧ ((req.priority < 0 ∨ 100 < req.priority) →
        ∀ job s1, EnqueueSimulation s now uid req ≠ .ok (job, s1)) := by
  constructor
  · intro job s1 h
    unfold EnqueueSimulation at h
    by_cases hs : req.serviceId = ""
    · rw [if_pos hs] at h; exact absurd h (by simp)
    · rw [if_neg hs] at h
      split at h
      · exact absurd h (by simp)
      · rename_i r he
        simp only [Except.ok.injEq] at h
        subst h
        have hf := Enqueue_ok_fields he
        have hpr : job.priority = apiPriority req.priority := hf.1
        refine ⟨by omega, by omega, fun h0 => ?_⟩
        rw [hpr]
        simp [apiPriority, h0]
  · intro hpri job s1 h
    unfold EnqueueSimulation at h
    by_cases hs : req.serviceId = ""
    · rw [if_pos hs] at h; exact absurd h (by simp)
    · rw [if_neg hs] at h
      split at h
      · exact absurd h (by simp)
      · rename_i r he
        have hne : (apiInput uid req).priority < 0 ∨ 100 < (apiInput uid req).priority := by
          simp only [apiInput, apiPriority]
          rw [if_neg (by omega)]
          exact hpri
        simp only [Except.ok.injEq] at h
        subst h
        exact Enqueue_not_ok_of_priority hne job s1 he

/-- Witness for C4: the unset-priority request is accepted on the empty
table and the created row carries priority 50. -/
theorem api_priority_bounds_witness :
    0 ≤ job50.priority ∧ job50.priority ≤ 100
    ∧ (reqUnsetPriority.priority = 0 → job50.priority = 50) :=
  (api_priority_bounds emptyStore 5 7 reqUnsetPriority).1 job50
    { jobs := [job50], nextId := 2 } rfl

/-- C7 as frozen is false at a concrete input: with both configs present but
priority 150, the INSERT violates the schema's `valid_priority` CHECK, so
`Enqueue` returns an error and creates no row. -/
theorem Enqueue_configs_not_sufficient :
    Enqueue emptyStore 0 input150
      = .error "enqueue job: new row violates check constraint valid_priority" := rfl

/-- C7 (amended): an input missing either config fails with a validation
error and no row is created; an input with both configs present whose
priority also lies within the schema's [0,100] bound inserts exactly one
new pending row, appended with the generated id and `queued_at = now`,
and returns it. -/
theorem Enqueue_spec (s : Store) (now : Nat) (input : CreateJobInput) :
    ((input.currentConfig = none ∨ input.proposedConfig = none) →
      ∃ e, Enqueue s now input = .error e)
    ∧ (∀ cc pc, input.currentConfig = some cc → input.proposedConfig = some pc →
        0 ≤ input.priority → input.priority ≤ 100 →
        ∃ job, Enqueue s now input
            = .ok (job, { jobs := s.jobs ++ [job], nextId := s.nextId + 1 })
          ∧ job.status = .pending ∧ job.id = s.nextId ∧ job.queuedAt = now) :=
  ⟨Enqueue_err_of_missing_config,
   fun cc pc hcc hpc h0 h100 =>
    ⟨newJob s now input cc pc, Enqueue_ok_of_valid hcc hpc h0 h100,
     rfl, rfl, rfl⟩⟩

/-- Witness for C7 (amended): the missing-`proposed_config` input errors,
and the valid input inserts one pending row on the empty table. -/
theorem Enqueue_spec_witness :
    (∃ e, Enqueue emptyStore 3 inputMissingProposed = .error e)
    ∧ (∃ job, Enqueue emptyStore 3 inputOk
          = .ok (job, { jobs := emptyStore.jobs ++ [job],
                        nextId := emptyStore.nextId + 1 })
        ∧ job.status = .pending ∧ job.id = emptyStore.nextId
        ∧ job.queuedAt = 3) :=
  ⟨(Enqueue_spec emptyStore 3 inputMissingProposed).1 (Or.inr (by decide)),
   (Enqueue_spec emptyStore 3 inputOk).2 "heap=2g" "heap=4g" (by decide)
     (by decide) (by decide) (by decide)⟩

/-! ## Lemmas about point lookups after UPDATE-by-id -/

theorem find?_update_by_id (jobs : List SimulationJob) (k : Nat)
    (f : SimulationJob → SimulationJob) (hid : ∀ x, (f x).id = x.id) :
    ((jobs.map fun x => if x.id = k then f x else x).find? fun x => x.id = k)
      = (jobs.find? fun x => x.id = k).map f := by
  induction jobs with
  | nil => rfl
  | cons x rest ih =>
    by_cases hx : x.id = k
    · rw [List.map_cons, if_pos hx]
      rw [List.find?_cons_of_pos _ (by simp [hid, hx]),
          List.find?_cons_of_pos _ (by simp [hx])]
      rfl
    · rw [List.map_cons, if_neg hx]
      rw [List.find?_cons_of_neg _ (by simp [hx]),
          List.find?_cons_of_neg _ (by simp [hx])]
      exact ih

theorem find?_isSome_of_mem {jobs : List SimulationJob} {x : SimulationJob}
    (hmem : x ∈ jobs) {k : Nat} (hk : x.id = k) :
    ∃ q, (jobs.find? fun y => y.id = k) = some q := by
  have : (jobs.find? fun y => y.id = k).isSome := by
    rw [List.find?_isSome]
    exact ⟨x, hmem, by simp [hk]⟩
  exact Option.isSome_iff_exists.mp this

theorem jobStatus_MarkFailed {s : Store} {k : Nat} (msg : String) (now : Nat)
    (h : ∃ x ∈ s.jobs, x.id = k) :
    jobStatus (MarkFailed s k msg now) k = some .failed
    ∧ jobErrorMessage (MarkFailed s k msg now) k = some (some msg) := by
  obtain ⟨x, hmem, hk⟩ := h
  obtain ⟨q, hq⟩ := find?_isSome_of_mem hmem hk
  have hfind : ((MarkFailed s k msg now).jobs.find? fun y => y.id = k)
      = some (failUpdate msg now q) := by
    show ((s.jobs.map fun y => if y.id = k then failUpdate msg now y else y).find?
        fun y => y.id = k) = some (failUpdate msg now q)
    rw [find?_update_by_id s.jobs k (failUpdate msg now) (fun x => rfl), hq]
    rfl
  constructor
  · show ((MarkFailed s k msg now).jobs.find? fun y => y.id = k).map
        SimulationJob.status = some .failed
    rw [hfind]; rfl
  · show ((MarkFailed s k msg now).jobs.find? fun y => y.id = k).map
        SimulationJob.errorMessage = some (some msg)
    rw [hfind]; rfl

theorem jobStatus_MarkCompleted {s : Store} {k : Nat} (res : String) (now : Nat)
    (h : ∃ x ∈ s.jobs, x.id = k) :
    jobStatus (MarkCompleted s k res now) k = some .completed
    ∧ jobResult (MarkCompleted s k res now) k = some (some res) := by
  obtain ⟨x, hmem, hk⟩ := h
  obtain ⟨q, hq⟩ := find?_isSome_of_mem hmem hk
  have hfind : ((MarkCompleted s k res now).jobs.find? fun y => y.id = k)
      = some (completeUpdate res now q) := by
    show ((s.jobs.map fun y => if y.id = k then completeUpdate res now y else y).find?
        fun y => y.id = k) = some (completeUpdate res now q)
    rw [find?_update_by_id s.jobs k (completeUpdate res now) (fun x => rfl), hq]
    rfl
  constructor
  · show ((MarkCompleted s k res now).jobs.find? fun y => y.id = k).map
        SimulationJob.status = some .completed
    rw [hfind]; rfl
  · show ((MarkCompleted s k res now).jobs.find? fun y => y.id = k).map
        SimulationJob.result = some (some res)
    rw [hfind]; rfl

theorem jobStatus_applyClaim {s : Store} {j : SimulationJob} (now : Nat)
    (hmem : j ∈ s.jobs) :
    jobStatus { s with jobs := applyClaim s.jobs j.id now } j.id
      = some .running := by
  obtain ⟨q, hq⟩ := find?_isSome_of_mem hmem rfl
  show ((s.jobs.map fun y => if y.id = j.id then claimUpdate now y else y).find?
      fun y => y.id = j.id).map SimulationJob.status = some .running
  rw [find?_update_by_id s.jobs j.id (claimUpdate now) (claimUpdate_id now), hq]
  rfl

theorem mem_map_if_update (g : SimulationJob → SimulationJob)
    (p : SimulationJob → Prop) [DecidablePred p]
    {jobs : List SimulationJob} {j : SimulationJob} (hmem : j ∈ jobs) :
    (if p j then g j else j) ∈ jobs.map fun x => if p x then g x else x :=
  List.mem_map_of_mem (fun x => if p x then g x else x) hmem

theorem exists_id_mem_applyClaim {jobs : List SimulationJob}
    {j : SimulationJob} (hmem : j ∈ jobs) (now : Nat) :
    ∃ x ∈ applyClaim jobs j.id now, x.id = j.id := by
  refine ⟨claimUpdate now j, ?_, claimUpdate_id now j⟩
  have h3 := mem_map_if_update (claimUpdate now) (fun x => x.id = j.id) hmem
  rw [if_pos rfl] at h3
  exact h3

/-! ## More sample data -/

/-- A table with a single running row, id 1. -/
def oneRunningStore : Store :=
  { jobs := [sampleJob 1 80 0 .running], nextId := 2 }

/-- A completed row with a stored result. -/
def completedJob : SimulationJob :=
  { sampleJob 1 80 0 .completed with
      result := some "verdict=approved", startedAt := some 1,
      completedAt := some 3 }

/-- A table holding only `completedJob`. -/
def completedStore : Store := { jobs := [completedJob], nextId := 2 }

/-- C6: `CancelJob` succeeds exactly when a pending row with the given id
exists; the pending row becomes `cancelled` (other fields intact apart from
`updated_at`); every row that is not a pending row with that id — running,
terminal, or a different id — is untouched, and a failed call (including an
unknown id) returns the conflict error with the table unchanged. -/
theorem CancelJob_spec (s : Store) (jobID now : Nat) :
    ((CancelJob s jobID now).1 = none ↔
      ∃ j ∈ s.jobs, j.id = jobID ∧ j.status = .pending)
    ∧ ((CancelJob s jobID now).1 ≠ none → (CancelJob s jobID now).2 = s)
    ∧ (∀ j ∈ s.jobs, j.id = jobID → j.status = .pending →
        (CancelJob s jobID now).1 = none
        ∧ cancelUpdate now j ∈ (CancelJob s jobID now).2.jobs)
    ∧ (∀ j ∈ s.jobs, ¬(j.id = jobID ∧ j.status = .pending) →
        j ∈ (CancelJob s jobID now).2.jobs) := by
  unfold CancelJob
  by_cases haff : (s.jobs.countP fun j => j.id = jobID ∧ j.status = .pending) = 0
  · rw [if_pos haff]
    have hno : ∀ j ∈ s.jobs, ¬(j.id = jobID ∧ j.status = .pending) := by
      intro j hj hc
      have := List.countP_eq_zero.mp haff j hj
      simp [hc.1, hc.2] at this
    refine ⟨?_, fun _ => rfl, ?_, fun j hj _ => hj⟩
    · simp only [reduceCtorEq, false_iff]
      intro ⟨j, hj, hid, hpend⟩
      exact hno j hj ⟨hid, hpend⟩
    · intro j hj hid hpend
      exact absurd ⟨hid, hpend⟩ (hno j hj)
  · rw [if_neg haff]
    have hex : ∃ j ∈ s.jobs, j.id = jobID ∧ j.status = .pending := by
      have := List.countP_pos_iff.mp (Nat.pos_of_ne_zero haff)
      obtain ⟨j, hj, hp⟩ := this
      simp only [decide_eq_true_eq] at hp
      exact ⟨j, hj, hp⟩
    refine ⟨by simp [hex], by simp, ?_, ?_⟩
    · intro j hj hid hpend
      refine ⟨rfl, ?_⟩
      have h3 := mem_map_if_update (cancelUpdate now)
        (fun x => x.id = jobID ∧ x.status = .pending) hj
      rw [if_pos ⟨hid, hpend⟩] at h3
      exact h3
    · intro j hj hc
      have h3 := mem_map_if_update (cancelUpdate now)
        (fun x => x.id = jobID ∧ x.status = .pending) hj
      rw [if_neg hc] at h3
      exact h3

/-- Witness for C6: cancelling the pending job succeeds and the cancelled
row is in the table; cancelling a running job leaves the table unchanged. -/
theorem CancelJob_spec_witness :
    ((CancelJob onePendingStore 1 6).1 = none
      ∧ cancelUpdate 6 (sampleJob 1 80 0 .pending)
          ∈ (CancelJob onePendingStore 1 6).2.jobs)
    ∧ (CancelJob oneRunningStore 1 6).2 = oneRunningStore :=
  ⟨(CancelJob_spec onePendingStore 1 6).2.2.1 (sampleJob 1 80 0 .pending)
      (by simp [onePendingStore]) rfl rfl,
   (CancelJob_spec oneRunningStore 1 6).2.1 (by decide)⟩

/-- C3 as frozen is false at a concrete input: `MarkFailed` updates by id
unconditionally, so it rewrites a job already `completed` — status, error
message and completion time all change. -/
theorem terminal_not_immutable :
    completedJob.status = .completed
    ∧ jobStatus (MarkFailed completedStore 1 "late failure" 9) 1
        = some .failed
    ∧ jobErrorMessage (MarkFailed completedStore 1 "late failure" 9) 1
        = some (some "late failure") :=
  ⟨rfl, rfl, rfl⟩

/-- C3 (amended): a job in terminal state `completed` or `failed` is
untouched by any subsequent `GetNextPendingJob` (it claims only pending
rows) and by any `CancelJob` (its UPDATE matches only pending rows);
`MarkCompleted` and `MarkFailed`, however, update by id unconditionally and
can still rewrite the terminal row. -/
theorem terminal_unchanged_by_claim_and_cancel (s : Store) (now : Nat)
    (j : SimulationJob) (hmem : j ∈ s.jobs)
    (hterm : j.status = .completed ∨ j.status = .failed)
    (hnodup : (s.jobs.map SimulationJob.id).Nodup) :
    j ∈ (GetNextPendingJob s now).2.jobs
    ∧ ∀ jobID now2, j ∈ (CancelJob s jobID now2).2.jobs := by
  constructor
  · cases hsel : selectNextPending s.jobs with
    | none =>
      have hred : (GetNextPendingJob s now).2 = s := by
        unfold GetNextPendingJob
        rw [hsel]
      rw [hred]
      exact hmem
    | some k =>
      have hred : (GetNextPendingJob s now).2
          = { s with jobs := applyClaim s.jobs k.id now } := by
        unfold GetNextPendingJob
        rw [hsel]
      rw [hred]
      obtain ⟨hkmem, hkpend⟩ := selectNextPending_mem hsel
      have hne : ¬(j.id = k.id) := by
        intro heq
        have := List.inj_on_of_nodup_map hnodup hmem hkmem heq
        rw [this, hkpend] at hterm
        rcases hterm with h | h <;> exact JobStatus.noConfusion h
      have h3 := mem_map_if_update (claimUpdate now) (fun x => x.id = k.id) hmem
      rw [if_neg hne] at h3
      exact h3
  · intro jobID now2
    have hc : ¬(j.id = jobID ∧ j.status = .pending) := by
      intro ⟨_, hpend⟩
      rw [hpend] at hterm
      rcases hterm with h | h <;> exact JobStatus.noConfusion h
    unfold CancelJob
    by_cases haff : (s.jobs.countP fun x => x.id = jobID ∧ x.status = .pending) = 0
    · rw [if_pos haff]; exact hmem
    · rw [if_neg haff]
      have h3 := mem_map_if_update (cancelUpdate now2)
        (fun x => x.id = jobID ∧ x.status = .pending) hmem
      rw [if_neg hc] at h3
      exact h3

/-- Witness for C3 (amended): the completed row survives a claim attempt and
a cancel attempt on its id unchanged. -/
theorem terminal_unchanged_witness :
    completedJob ∈ (GetNextPendingJob completedStore 9).2.jobs
    ∧ completedJob ∈ (CancelJob completedStore 1 12).2.jobs :=
  ⟨(terminal_unchanged_by_claim_and_cancel completedStore 9 completedJob
      (by simp [completedStore]) (Or.inl rfl) (by decide)).1,
   (terminal_unchanged_by_claim_and_cancel completedStore 9 completedJob
      (by simp [completedStore]) (Or.inl rfl) (by decide)).2 1 12⟩

/-! ## Lemmas about the worker cycle -/

theorem applyClaim_map_errorMessage (jobs : List SimulationJob) (k now : Nat) :
    (applyClaim jobs k now).map SimulationJob.errorMessage
      = jobs.map SimulationJob.errorMessage := by
  induction jobs with
  | nil => rfl
  | cons x rest ih =>
    simp only [applyClaim, List.map_cons] at ih ⊢
    rw [ih]
    by_cases hx : x.id = k <;> simp [hx, claimUpdate]

theorem processNextJob_some (s : Store) (now : Nat) {j : SimulationJob}
    (hsel : selectNextPending s.jobs = some j) (env : WorkerEnv) :
    processNextJob s now env
      = match executeSimulation { s with jobs := applyClaim s.jobs j.id now }
          now j.id env with
        | .ok s2 => s2
        | .error msg =>
          if env.markFailedErrors then
            { s with jobs := applyClaim s.jobs j.id now }
          else
            MarkFailed { s with jobs := applyClaim s.jobs j.id now } j.id msg now := by
  unfold processNextJob GetNextPendingJob
  rw [hsel]
  rfl

/-- The execution step fails: a transport failure, a non-200 status, or a
failing `MarkCompleted` write. -/
def execFails (d : DelegateResult) (mc : Option String) : Prop :=
  match d with
  | .transportError _ => True
  | .response code _ => code ≠ 200 ∨ mc.isSome

theorem executeSimulation_error {s : Store} {now jobID : Nat}
    {d : DelegateResult} {mc : Option String} (hfail : execFails d mc) :
    ∃ m, executeSimulation s now jobID ⟨d, mc, true⟩ = .error m := by
  cases d with
  | transportError msg => exact ⟨_, rfl⟩
  | response code body =>
    by_cases hcode : code = 200
    · subst hcode
      cases hmc : mc with
      | none =>
        exfalso
        simp only [execFails, hmc] at hfail
        rcases hfail with h | h
        · exact h rfl
        · exact Bool.noConfusion h
      | some m => exact ⟨_, rfl⟩
    · refine ⟨"advisor returned " ++ toString code ++ ": " ++ body, ?_⟩
      simp only [executeSimulation]
      rw [if_pos hcode]

/-! ## Worker claim theorems -/

/-- C5 as frozen is false at a concrete input: the worker checks
`resp.StatusCode != http.StatusOK`, i.e. only 200 counts as success, not the
2xx range — a 201 response with body "created" marks the claimed job
`failed` (no result stored), not `completed`. -/
theorem status_201_marks_failed :
    jobStatus (processNextJob onePendingStore 9
      { delegate := .response 201 "created", markCompletedError := none,
        markFailedErrors := false }) 1 = some .failed
    ∧ jobResult (processNextJob onePendingStore 9
      { delegate := .response 201 "created", markCompletedError := none,
        markFailedErrors := false }) 1 = some none
    ∧ jobErrorMessage (processNextJob onePendingStore 9
      { delegate := .response 201 "created", markCompletedError := none,
        markFailedErrors := false }) 1
        = some (some "advisor returned 201: created") :=
  ⟨rfl, rfl, rfl⟩

/-- C5 (amended): for a claimed job (with the terminal writes succeeding),
the Advisor response counts as success exactly when its HTTP status is 200
(`http.StatusOK`) — the raw body is then stored verbatim as the job's
result via `MarkCompleted`; any other status code, and any transport
failure, marks the job failed instead. -/
theorem worker_success_iff_200 (s : Store) (now : Nat) (j : SimulationJob)
    (d : DelegateResult) (hsel : selectNextPending s.jobs = some j) :
    (∀ code body, d = .response code body →
      (code = 200 →
        jobStatus (processNextJob s now ⟨d, none, false⟩) j.id = some .completed
        ∧ jobResult (processNextJob s now ⟨d, none, false⟩) j.id
            = some (some body))
      ∧ (code ≠ 200 →
        jobStatus (processNextJob s now ⟨d, none, false⟩) j.id = some .failed))
    ∧ (∀ msg, d = .transportError msg →
        jobStatus (processNextJob s now ⟨d, none, false⟩) j.id = some .failed) := by
  have hmem := (selectNextPending_mem hsel).1
  have hex := exists_id_mem_applyClaim hmem now
  constructor
  · intro code body hd
    subst hd
    constructor
    · intro hcode
      subst hcode
      have hred := processNextJob_some s now hsel ⟨.response 200 body, none, false⟩
      have hexec : executeSimulation { s with jobs := applyClaim s.jobs j.id now }
          now j.id ⟨.response 200 body, none, false⟩
          = .ok (MarkCompleted { s with jobs := applyClaim s.jobs j.id now }
              j.id body now) := rfl
      rw [hexec] at hred
      have hred2 : processNextJob s now ⟨.response 200 body, none, false⟩
          = MarkCompleted { s with jobs := applyClaim s.jobs j.id now }
              j.id body now := hred
      rw [hred2]
      exact jobStatus_MarkCompleted body now hex
    · intro hcode
      have hred := processNextJob_some s now hsel ⟨.response code body, none, false⟩
      have hexec : executeSimulation { s with jobs := applyClaim s.jobs j.id now }
          now j.id ⟨.response code body, none, false⟩
          = .error ("advisor returned " ++ toString code ++ ": " ++ body) := by
        simp only [executeSimulation]
        rw [if_pos hcode]
      rw [hexec] at hred
      have hred2 : processNextJob s now ⟨.response code body, none, false⟩
          = MarkFailed { s with jobs := applyClaim s.jobs j.id now } j.id
              ("advisor returned " ++ toString code ++ ": " ++ body) now := hred
      rw [hred2]
      exact (jobStatus_MarkFailed _ now hex).1
  · intro msg hd
    subst hd
    have hred := processNextJob_some s now hsel ⟨.transportError msg, none, false⟩
    have hexec : executeSimulation { s with jobs := applyClaim s.jobs j.id now }
        now j.id ⟨.transportError msg, none, false⟩
        = .error ("execute request: " ++ msg) := rfl
    rw [hexec] at hred
    have hred2 : processNextJob s now ⟨.transportError msg, none, false⟩
        = MarkFailed { s with jobs := applyClaim s.jobs j.id now } j.id
            ("execute request: " ++ msg) now := hred
    rw [hred2]
    exact (jobStatus_MarkFailed _ now hex).1

/-- Witness for C5 (amended): a 200 response on the one-pending-job table
completes the job with the body stored verbatim; a 404 response fails it. -/
theorem worker_success_iff_200_witness :
    (jobStatus (processNextJob onePendingStore 9
        ⟨.response 200 "verdict", none, false⟩) 1 = some .completed
      ∧ jobResult (processNextJob onePendingStore 9
        ⟨.response 200 "verdict", none, false⟩) 1 = some (some "verdict"))
    ∧ jobStatus (processNextJob onePendingStore 9
        ⟨.response 404 "missing", none, false⟩) 1 = some .failed :=
  ⟨((worker_success_iff_200 onePendingStore 9 (sampleJob 1 80 0 .pending)
      (.response 200 "verdict") rfl).1 200 "verdict" rfl).1 rfl,
   ((worker_success_iff_200 onePendingStore 9 (sampleJob 1 80 0 .pending)
      (.response 404 "missing") rfl).1 404 "missing" rfl).2 (by decide)⟩

/-- C9: when the Advisor returns HTTP 200 but the `MarkCompleted` write
fails, the worker calls `MarkFailed` on the same job — a job whose
execution succeeded ends `failed`, its error message describing the
mark-completed persistence failure. -/
theorem mark_completed_failure_marks_failed (s : Store) (now : Nat)
    (j : SimulationJob) (body msg : String)
    (hsel : selectNextPending s.jobs = some j) :
    jobStatus (processNextJob s now ⟨.response 200 body, some msg, false⟩) j.id
      = some .failed
    ∧ jobErrorMessage
        (processNextJob s now ⟨.response 200 body, some msg, false⟩) j.id
      = some (some ("mark completed: " ++ msg)) := by
  have hmem := (selectNextPending_mem hsel).1
  have hex := exists_id_mem_applyClaim hmem now
  have hred := processNextJob_some s now hsel ⟨.response 200 body, some msg, false⟩
  have hexec : executeSimulation { s with jobs := applyClaim s.jobs j.id now }
      now j.id ⟨.response 200 body, some msg, false⟩
      = .error ("mark completed: " ++ msg) := rfl
  rw [hexec] at hred
  have hred2 : processNextJob s now ⟨.response 200 body, some msg, false⟩
      = MarkFailed { s with jobs := applyClaim s.jobs j.id now } j.id
          ("mark completed: " ++ msg) now := hred
  rw [hred2]
  exact jobStatus_MarkFailed _ now hex

/-- Witness for C9: a 200 response whose MarkCompleted write fails with
"db down" leaves the job failed with that persistence error recorded. -/
theorem mark_completed_failure_witness :
    jobStatus (processNextJob onePendingStore 9
      ⟨.response 200 "ok", some "db down", false⟩) 1 = some .failed
    ∧ jobErrorMessage (processNextJob onePendingStore 9
      ⟨.response 200 "ok", some "db down", false⟩) 1
      = some (some "mark completed: db down") :=
  mark_completed_failure_marks_failed onePendingStore 9
    (sampleJob 1 80 0 .pending) "ok" "db down" rfl

/-- C10: when the execution of a claimed job fails and the `MarkFailed`
write itself fails, its error is discarded — `processNextJob` returns with
the table exactly as the claim left it: the job is still `running` and no
row's `error_message` has changed, so the execution error is recorded
nowhere. -/
theorem mark_failed_error_discarded (s : Store) (now : Nat)
    (j : SimulationJob) (d : DelegateResult) (mc : Option String)
    (hsel : selectNextPending s.jobs = some j) (hfail : execFails d mc) :
    processNextJob s now ⟨d, mc, true⟩
      = { s with jobs := applyClaim s.jobs j.id now }
    ∧ jobStatus (processNextJob s now ⟨d, mc, true⟩) j.id = some .running
    ∧ (processNextJob s now ⟨d, mc, true⟩).jobs.map SimulationJob.errorMessage
        = s.jobs.map SimulationJob.errorMessage := by
  have hmem := (selectNextPending_mem hsel).1
  obtain ⟨m, hexec⟩ :=
    @executeSimulation_error { s with jobs := applyClaim s.jobs j.id now }
      now j.id d mc hfail
  have hred := processNextJob_some s now hsel ⟨d, mc, true⟩
  rw [hexec] at hred
  have hred2 : processNextJob s now ⟨d, mc, true⟩
      = { s with jobs := applyClaim s.jobs j.id now } := hred
  refine ⟨hred2, ?_, ?_⟩
  · rw [hred2]
    exact jobStatus_applyClaim now hmem
  · rw [hred2]
    exact applyClaim_map_errorMessage s.jobs j.id now

/-- Witness for C10: a 500 response with a failing MarkFailed write leaves
the one-pending-job table with the job claimed but still running and no
error message anywhere. -/
theorem mark_failed_error_discarded_witness :
    processNextJob onePendingStore 9 ⟨.response 500 "boom", none, true⟩
      = { onePendingStore with jobs := applyClaim onePendingStore.jobs 1 9 }
    ∧ jobStatus (processNextJob onePendingStore 9
        ⟨.response 500 "boom", none, true⟩) 1 = some .running
    ∧ (processNextJob onePendingStore 9
        ⟨.response 500 "boom", none, true⟩).jobs.map SimulationJob.errorMessage
        = onePendingStore.jobs.map SimulationJob.errorMessage :=
  mark_failed_error_discarded onePendingStore 9 (sampleJob 1 80 0 .pending)
    (.response 500 "boom") none rfl (Or.inl (by decide))

end InflightQueue
